import Mathlib

/-!
Verification of the flash programming engine of cx861xx_flash (v1.1 of
cx861xx_flash.c).  The development shallowly embeds the program in three
layers, mirroring the source:

 * the USB memory-access layer (cx_read_mem / cx_write_mem), modelled as
   executable functions over an abstract USB device that answers each bulk
   transfer, producing the list of 64-byte command packets sent;
 * the flash register layer and the chip protocol drivers
   (cx_flash_read / cx_flash_write / intel_* / amd_*), modelled over an
   oracle of 16-bit read results, producing a trace of 16-bit flash
   operations;
 * the engine (the write loop of main), producing a trace of per-block
   driver operations.

Unbounded polling loops are given explicit fuel; a result of none means
the fuel ran out while the source would still be polling (the source can
poll forever by design).
-/

set_option linter.unusedVariables false

namespace CxFlash

/-! Command and status constants, transcribed from the C defines. -/

def FW_READ_MEM : Nat := 2
def FW_WRITE_MEM : Nat := 3

def MA_BYTE : Nat := 0
def MA_WORD : Nat := 1
def MA_DWORD : Nat := 2

def FLASH_CMD_ID : Nat := 0x90

def INTEL_CMD_READ : Nat := 0xff
def INTEL_CMD_READSTATUS : Nat := 0x70
def INTEL_CMD_CLEARSTATUS : Nat := 0x50
def INTEL_CMD_PROGRAM : Nat := 0x40
def INTEL_CMD_ERASE : Nat := 0x20
def INTEL_CMD_ERASECONFIRM : Nat := 0xd0
def INTEL_CMD_LOCKMODE : Nat := 0x60
def INTEL_CMD_LOCK : Nat := 0x01
def INTEL_CMD_UNLOCK : Nat := 0xd0

def INTEL_ST_READY : Nat := 0x80
def INTEL_ST_ERROR_MASK : Nat := 0x5a

def AMD_CMD_RESET : Nat := 0xf0
def AMD_CMD_PROGRAM : Nat := 0xa0
def AMD_CMD_ERASE_PREPARE : Nat := 0x80
def AMD_CMD_ERASE_SECTOR : Nat := 0x30
def AMD_CMD_UNLOCK_BYPASS : Nat := 0x20
def AMD_CMD_BYPASS_RESET1 : Nat := 0x90
def AMD_CMD_BYPASS_RESET2 : Nat := 0x00

def AMD_ST_DATAPOLL : Nat := 0x80
def AMD_ST_TIMEOUT : Nat := 0x20

/-! ## Flash register layer and chip drivers

The drivers only touch the device through cx_flash_write (a 2-byte
cx_write_mem of one 16-bit word at flash_base + addr), cx_flash_read
(a 2-byte cx_read_mem returning one 16-bit word) and the merged
4-byte write of the optimized program path.  cx_flash_read ignores the
transport return code and always yields a 16-bit value (see the C2
analysis below), so the driver layer is modelled over an oracle
rs : Nat -> Nat giving the value returned by the k-th flash read of the
operation, and each operation produces a trace of 16-bit events.
Addresses in this layer are flash-relative; cx_flash_read and
cx_flash_write add flash_base when they call the memory layer. -/

inductive FlashEv where
  | w16 (addr data : Nat)
  | w2x16 (addr d0 d1 : Nat)
  | r16 (addr data : Nat)
  deriving DecidableEq, Repr

def FlashEv.isRead : FlashEv → Bool
  | .r16 _ _ => true
  | _ => false

/-- writes of a trace: the trace with the read events filtered out. -/
def writesOf (evs : List FlashEv) : List FlashEv :=
  evs.filter (fun e => !e.isRead)

/-- cx_flash_cmd: the JEDEC three-cycle unlock sequence (writes 0xaa at
0xaaa, 0x55 at 0x554, then the command byte at 0xaaa). -/
def cx_flash_cmd (cmd : Nat) : List FlashEv :=
  [FlashEv.w16 0xaaa 0xaa, FlashEv.w16 0x554 0x55, FlashEv.w16 0xaaa cmd]

/-- Intel status poll: the do/while loop reading the status register at
offset 0 until INTEL_ST_READY is set (shared by intel_erase_block and the
slow path of intel_program_block).  Returns (final status, next read
index, events); none when fuel runs out while the ready bit is clear. -/
def intel_status_poll (rs : Nat → Nat) : Nat → Nat → Option (Nat × Nat × List FlashEv)
  | _, 0 => none
  | k, fuel + 1 =>
    let status := rs k
    if status &&& INTEL_ST_READY ≠ 0 then
      some (status, k + 1, [FlashEv.r16 0 status])
    else
      match intel_status_poll rs (k + 1) fuel with
      | none => none
      | some (st, k2, evs) => some (st, k2, FlashEv.r16 0 status :: evs)

/-- intel_erase_block: clear status, read status, erase + erase-confirm at
the block address, poll until ready, return to read-array mode, succeed
iff no bit of INTEL_ST_ERROR_MASK is set in the final status. -/
def intel_erase_block (rs : Nat → Nat) (addr : Nat) (fuel : Nat) :
    Option (Bool × List FlashEv) :=
  match intel_status_poll rs 0 fuel with
  | none => none
  | some (status, _, pevs) =>
    let evs := [FlashEv.w16 0 INTEL_CMD_CLEARSTATUS, FlashEv.w16 0 INTEL_CMD_READSTATUS,
                FlashEv.w16 addr INTEL_CMD_ERASE, FlashEv.w16 addr INTEL_CMD_ERASECONFIRM]
               ++ pevs ++ [FlashEv.w16 0 INTEL_CMD_READ]
    if status &&& INTEL_ST_ERROR_MASK ≠ 0 then some (false, evs) else some (true, evs)

/-- intel_optimized_program_word: one single 4-byte cx_write_mem at
flash_base + addr - 2 whose payload is the PROGRAM command word followed
by the data word. -/
def intel_optimized_program_word (addr data : Nat) : FlashEv :=
  FlashEv.w2x16 (addr - 2) INTEL_CMD_PROGRAM data

/-- events emitted to program word i of the block at addr in
intel_program_block: index 0 uses the discrete command write then data
write, every other index the merged optimized write. -/
def intel_program_word_evs (addr i d : Nat) : List FlashEv :=
  if i = 0 then
    [FlashEv.w16 addr INTEL_CMD_PROGRAM, FlashEv.w16 (addr + i * 2) d]
  else
    [intel_optimized_program_word (addr + i * 2) d]

/-- loop body of intel_program_block over the remaining word indices,
threading the read-oracle index. -/
def intel_program_loop (rs : Nat → Nat) (addr : Nat) (data : Nat → Nat) (slow : Bool)
    (fuel : Nat) : List Nat → Nat → Option (Bool × List FlashEv)
  | [], _ => some (true, [FlashEv.w16 0 INTEL_CMD_READ])
  | i :: rest, k =>
    if data i = 0xffff then
      intel_program_loop rs addr data slow fuel rest k
    else
      let wevs := intel_program_word_evs addr i (data i)
      if slow then
        match intel_status_poll rs k fuel with
        | none => none
        | some (status, k2, pevs) =>
          if status &&& INTEL_ST_ERROR_MASK ≠ 0 then
            some (false, wevs ++ pevs ++ [FlashEv.w16 0 INTEL_CMD_READ])
          else
            match intel_program_loop rs addr data slow fuel rest k2 with
            | none => none
            | some (ok, evs) => some (ok, wevs ++ pevs ++ evs)
      else
        match intel_program_loop rs addr data slow fuel rest k with
        | none => none
        | some (ok, evs) => some (ok, wevs ++ evs)

/-- intel_program_block: clear status, read status, then program each
16-bit word of the size-byte block, skipping 0xffff words; in slow mode
poll the status register after each word and abort on a status error. -/
def intel_program_block (rs : Nat → Nat) (addr : Nat) (data : Nat → Nat) (size : Nat)
    (slow : Bool) (fuel : Nat) : Option (Bool × List FlashEv) :=
  match intel_program_loop rs addr data slow fuel (List.range (size / 2)) 0 with
  | none => none
  | some (ok, evs) =>
    some (ok, FlashEv.w16 0 INTEL_CMD_CLEARSTATUS :: FlashEv.w16 0 INTEL_CMD_READSTATUS :: evs)

/-- intel_set_block_lock: lock-mode command then lock or unlock confirm at
the block address. -/
def intel_set_block_lock (addr : Nat) (lock : Bool) : List FlashEv :=
  [FlashEv.w16 addr INTEL_CMD_LOCKMODE,
   FlashEv.w16 addr (if lock then INTEL_CMD_LOCK else INTEL_CMD_UNLOCK)]

/-- AMD erase data polling: read back the block address; if the data-poll
bit (bit 7) is clear and the timeout bit (bit 5) is set, write the reset
command and fail; otherwise loop until bit 7 is set. -/
def amd_erase_poll (rs : Nat → Nat) (addr : Nat) : Nat → Nat → Option (Bool × List FlashEv)
  | _, 0 => none
  | k, fuel + 1 =>
    let status := rs k
    if status &&& AMD_ST_DATAPOLL = 0 ∧ status &&& AMD_ST_TIMEOUT ≠ 0 then
      some (false, [FlashEv.r16 addr status, FlashEv.w16 0 AMD_CMD_RESET])
    else if status &&& AMD_ST_DATAPOLL ≠ 0 then
      some (true, [FlashEv.r16 addr status])
    else
      match amd_erase_poll rs addr (k + 1) fuel with
      | none => none
      | some (ok, evs) => some (ok, FlashEv.r16 addr status :: evs)

/-- amd_erase_block: unlock sequence for erase-prepare, raw unlock writes,
erase-sector at the block address, then data polling at the block
address. -/
def amd_erase_block (rs : Nat → Nat) (addr : Nat) (fuel : Nat) :
    Option (Bool × List FlashEv) :=
  match amd_erase_poll rs addr 0 fuel with
  | none => none
  | some (ok, evs) =>
    some (ok, cx_flash_cmd AMD_CMD_ERASE_PREPARE
              ++ [FlashEv.w16 0xaaa 0xaa, FlashEv.w16 0x554 0x55,
                  FlashEv.w16 addr AMD_CMD_ERASE_SECTOR]
              ++ evs)

/-- amd_optimized_program_word: the merged 4-byte write with the AMD
program command. -/
def amd_optimized_program_word (addr data : Nat) : FlashEv :=
  FlashEv.w2x16 (addr - 2) AMD_CMD_PROGRAM data

/-- events emitted to program word i of the block in amd_program_block. -/
def amd_program_word_evs (addr i d : Nat) : List FlashEv :=
  if i = 0 then
    [FlashEv.w16 addr AMD_CMD_PROGRAM, FlashEv.w16 (addr + i * 2) d]
  else
    [amd_optimized_program_word (addr + i * 2) d]

/-- AMD program data polling (slow path): read back the written address
until it echoes the written data; a mismatch with the timeout bit set
writes the bypass-reset pair and the reset command and fails. -/
def amd_data_poll (rs : Nat → Nat) (a d : Nat) : Nat → Nat → Option (Bool × Nat × List FlashEv)
  | _, 0 => none
  | k, fuel + 1 =>
    let status := rs k
    if status ≠ d ∧ status &&& AMD_ST_TIMEOUT ≠ 0 then
      some (false, k + 1, [FlashEv.r16 a status, FlashEv.w16 0 AMD_CMD_BYPASS_RESET1,
                           FlashEv.w16 0 AMD_CMD_BYPASS_RESET2, FlashEv.w16 0 AMD_CMD_RESET])
    else if status = d then
      some (true, k + 1, [FlashEv.r16 a status])
    else
      match amd_data_poll rs a d (k + 1) fuel with
      | none => none
      | some (ok, k2, evs) => some (ok, k2, FlashEv.r16 a status :: evs)

/-- loop body of amd_program_block over the remaining word indices. -/
def amd_program_loop (rs : Nat → Nat) (addr : Nat) (data : Nat → Nat) (slow : Bool)
    (fuel : Nat) : List Nat → Nat → Option (Bool × List FlashEv)
  | [], _ => some (true, [FlashEv.w16 0 AMD_CMD_BYPASS_RESET1, FlashEv.w16 0 AMD_CMD_BYPASS_RESET2])
  | i :: rest, k =>
    if data i = 0xffff then
      amd_program_loop rs addr data slow fuel rest k
    else
      let wevs := amd_program_word_evs addr i (data i)
      if slow then
        match amd_data_poll rs (addr + i * 2) (data i) k fuel with
        | none => none
        | some (ok, k2, pevs) =>
          if ok then
            match amd_program_loop rs addr data slow fuel rest k2 with
            | none => none
            | some (ok2, evs) => some (ok2, wevs ++ pevs ++ evs)
          else
            some (false, wevs ++ pevs)
      else
        match amd_program_loop rs addr data slow fuel rest k with
        | none => none
        | some (ok, evs) => some (ok, wevs ++ evs)

/-- amd_program_block: unlock-bypass sequence, program each word skipping
0xffff words (discrete writes for index 0, merged otherwise), optional
data polling in slow mode, then the bypass-reset pair. -/
def amd_program_block (rs : Nat → Nat) (addr : Nat) (data : Nat → Nat) (size : Nat)
    (slow : Bool) (fuel : Nat) : Option (Bool × List FlashEv) :=
  match amd_program_loop rs addr data slow fuel (List.range (size / 2)) 0 with
  | none => none
  | some (ok, evs) => some (ok, cx_flash_cmd AMD_CMD_UNLOCK_BYPASS ++ evs)

/-! ## Memory access layer

cx_read_mem and cx_write_mem frame a logical transfer into 64-byte
command packets of at most 56 payload bytes each.  The USB target is
modelled by the outcome of each bulk transfer: send n is the libusb
return code of the n-th outbound transfer of the call, recv n is the
return code of the n-th inbound transfer together with the byte_count
and data fields of the packet it delivered.  32-bit address/count
arithmetic and the 8-bit packet_byte_count arithmetic of the source are
kept exactly (reduction mod 2^32 and 2^8). -/

def add32 (a b : Nat) : Nat := (a + b) % 4294967296

def sub32 (a b : Nat) : Nat := (a + 4294967296 - b % 4294967296) % 4294967296

def sub8 (a b : Nat) : Nat := (a + 256 - b % 256) % 256

/-- payload bytes actually copied by a memcpy of n bytes from a buffer:
the first n bytes, zero beyond the modelled buffer content. -/
def takePad (n : Nat) (l : List Nat) : List Nat :=
  l.take n ++ List.replicate (n - l.length) 0

/-- cx_fw_packet, the 64-byte command packet. -/
structure Packet where
  cmd : Nat
  byte_count : Nat
  access_type : Nat
  ack_request : Nat
  address : Nat
  data : List Nat
  deriving DecidableEq, Repr

/-- behaviour of the USB target for one cx_read_mem / cx_write_mem call:
the n-th outbound bulk transfer returns code (send n); the n-th inbound
bulk transfer returns code (recv n).1 and, on success, a packet whose
byte_count field is (recv n).2.1 taken as a u8 and whose data field
holds the bytes (recv n).2.2. -/
structure UsbDev where
  send : Nat → Int
  recv : Nat → Int × Nat × List Nat

/-- cx_write_mem: chunk the buffer into packets of at most 56 bytes,
sending each as one FW_WRITE_MEM packet with ack_request 0; a negative
libusb code aborts and is returned at once.  Returns the code, the
packets attempted, and the next outbound transfer index. -/
def cx_write_mem (dev : UsbDev) (addr count : Nat) (buf : List Nat) (access_type : Nat)
    (sn : Nat) : Int × List Packet × Nat :=
  if h : count = 0 then (0, [], sn)
  else
    let bc := min count 56
    let p : Packet := ⟨FW_WRITE_MEM, bc, access_type, 0, addr % 4294967296, takePad 56 (buf.take bc)⟩
    let ret := dev.send sn
    if ret < 0 then (ret, [p], sn + 1)
    else
      let r := cx_write_mem dev (add32 addr bc) (count - bc) (buf.drop bc) access_type (sn + 1)
      (r.1, p :: r.2.1, r.2.2)
  termination_by count
  decreasing_by simp_wf; omega

/-- inner response loop of cx_read_mem: receive packets until
packet_byte_count bytes have arrived, advancing buf, count and addr by
each received byte_count (u8/u32 arithmetic as in the source).  Returns
(code, next inbound index, addr, count, collected bytes); none when the
fuel runs out before the loop exits. -/
def cx_read_inner (dev : UsbDev) :
    Nat → Nat → Nat → Nat → Nat → List Nat → Option (Int × Nat × Nat × Nat × List Nat)
  | _, rn, 0, addr, count, acc => some (0, rn, addr, count, acc)
  | 0, _, _ + 1, _, _, _ => none
  | fuel + 1, rn, pbc + 1, addr, count, acc =>
    let r := dev.recv rn
    if r.1 < 0 then some (r.1, rn + 1, addr, count, acc)
    else
      let bc := r.2.1 % 256
      cx_read_inner dev fuel (rn + 1) (sub8 (pbc + 1) bc) (add32 addr bc) (sub32 count bc)
        (acc ++ takePad bc r.2.2)

/-- outer request loop of cx_read_mem: while count > 0, send one
FW_READ_MEM packet with ack_request 1 requesting min count 56 bytes,
then run the response loop.  Returns (code, request packets attempted,
collected bytes, next outbound index, next inbound index). -/
def cx_read_outer (dev : UsbDev) :
    Nat → Nat → Nat → Nat → Nat → Nat → List Nat →
    Option (Int × List Packet × List Nat × Nat × Nat)
  | _, _, 0, _, sn, rn, acc => some (0, [], acc, sn, rn)
  | 0, _, _ + 1, _, _, _, _ => none
  | fuel + 1, addr, count + 1, access_type, sn, rn, acc =>
    let bc := min (count + 1) 56
    let p : Packet := ⟨FW_READ_MEM, bc, access_type, 1, addr % 4294967296, List.replicate 56 0⟩
    let ret := dev.send sn
    if ret < 0 then some (ret, [p], acc, sn + 1, rn)
    else
      match cx_read_inner dev fuel rn bc addr (count + 1) acc with
      | none => none
      | some (ret2, rn2, addr2, count2, acc2) =>
        if ret2 < 0 then some (ret2, [p], acc2, sn + 1, rn2)
        else
          match cx_read_outer dev fuel addr2 count2 access_type (sn + 1) rn2 acc2 with
          | none => none
          | some (ret3, ps, acc3, sn3, rn3) => some (ret3, p :: ps, acc3, sn3, rn3)

/-- cx_read_mem: read count bytes at addr.  Returns (return code, request
packets sent, bytes stored into the caller's buffer). -/
def cx_read_mem (dev : UsbDev) (addr count access_type : Nat) (fuel : Nat) :
    Option (Int × List Packet × List Nat) :=
  match cx_read_outer dev fuel addr count access_type 0 0 [] with
  | none => none
  | some (ret, ps, acc, _, _) => some (ret, ps, acc)

/-- cx_flash_read: a 2-byte word read at flash_base + addr.  The source
ignores the return code of cx_read_mem and returns the local 16-bit
variable regardless, so the result is assembled little-endian from the
bytes that did arrive, with the given uninitialized stack bytes standing
in for bytes never written. -/
def cx_flash_read (dev : UsbDev) (flash_base addr : Nat) (uninit : Nat × Nat)
    (fuel : Nat) : Option Nat :=
  match cx_read_mem dev (flash_base + addr) 2 MA_WORD fuel with
  | none => none
  | some (_, _, bytes) => some (bytes.getD 0 uninit.1 + 256 * bytes.getD 1 uninit.2)

/-- cx_flash_write: a 2-byte word write at flash_base + addr (the source
discards the cx_write_mem return code; it is kept here for analysis). -/
def cx_flash_write (dev : UsbDev) (flash_base addr data : Nat) (sn : Nat) :
    Int × List Packet × Nat :=
  cx_write_mem dev (flash_base + addr) 2 [data % 256, data / 256 % 256] MA_WORD sn

/-! ## Chip catalog, identification and the engine write loop

The function pointers of struct flash_chip are modelled by tags naming
the bound driver (none models a NULL pointer, as in the set_block_lock
slot of the AMD entry and the slots of the end marker). -/

structure block_desc where
  count : Nat
  size : Nat
  deriving DecidableEq, Repr

inductive LockFn where
  | intel
  deriving DecidableEq, Repr

inductive EraseFn where
  | intel
  | amd
  deriving DecidableEq, Repr

inductive ProgFn where
  | intel
  | amd
  deriving DecidableEq, Repr

structure flash_chip where
  mfg : Nat
  dev : Nat
  name : String
  size : Nat
  blocks : List block_desc
  set_block_lock : Option LockFn
  erase_block : Option EraseFn
  program_block : Option ProgFn
  deriving DecidableEq, Repr

/-- first catalog entry: the Intel 28F320C3B descriptor. -/
def intel_chip : flash_chip :=
  ⟨0x0089, 0x88c5, "Intel 28F320C3B", 4 * 1024 * 1024,
   [⟨8, 8192⟩, ⟨63, 65536⟩, ⟨0, 0⟩],
   some LockFn.intel, some EraseFn.intel, some ProgFn.intel⟩

/-- second catalog entry: the MXIC MX29LV160B descriptor (no lock
driver). -/
def mxic_chip : flash_chip :=
  ⟨0x00c2, 0x2249, "MXIC MX29LV160B", 2 * 1024 * 1024,
   [⟨1, 16384⟩, ⟨2, 8192⟩, ⟨1, 32768⟩, ⟨31, 65536⟩, ⟨0, 0⟩],
   none, some EraseFn.amd, some ProgFn.amd⟩

/-- supported_chips: the static catalog, end marker included. -/
def supported_chips : List flash_chip :=
  [intel_chip, mxic_chip, ⟨0, 0, "", 0, [], none, none, none⟩]

/-- block descriptors actually iterated: the sequence up to the
zero-count sentinel. -/
def activeBlocks (c : flash_chip) : List block_desc :=
  c.blocks.takeWhile (fun b => b.count != 0)

/-- flash_identify, catalog-matching part: scan the catalog up to the
zero-mfg end marker for the first entry matching both IDs (the
surrounding I/O reads the two IDs and restores array-read mode and is
not part of the match). -/
def flash_identify (flash_mfg flash_dev : Nat) : Option flash_chip :=
  (supported_chips.takeWhile (fun c => c.mfg != 0)).find?
    (fun c => c.mfg == flash_mfg && c.dev == flash_dev)

/-- per-block driver operations at the engine granularity; the Bool on
erase and program records the driver's returned result. -/
inductive OpEv where
  | unlockOp (addr : Nat)
  | eraseOp (addr : Nat) (ok : Bool)
  | programOp (addr : Nat) (ok : Bool)
  | lockOp (addr : Nat)
  deriving DecidableEq, Repr

/-- one iteration of the inner write loop of main: unlock (when the chip
has a lock driver), erase, program, lock.  er and pr give the result the
erase and program drivers return at this address; main never inspects
these results. -/
def engine_block_ops (hasLock : Bool) (er pr : Nat → Bool) (addr : Nat) : List OpEv :=
  (if hasLock then [OpEv.unlockOp addr] else [])
  ++ [OpEv.eraseOp addr (er addr), OpEv.programOp addr (pr addr)]
  ++ (if hasLock then [OpEv.lockOp addr] else [])

/-- inner loop of main over the j blocks remaining in one descriptor. -/
def engine_inner (hasLock : Bool) (er pr : Nat → Bool) (size : Nat) :
    Nat → Nat → List OpEv
  | 0, _ => []
  | j + 1, addr =>
    engine_block_ops hasLock er pr addr ++ engine_inner hasLock er pr size j (addr + size)

/-- outer loop of main over the block descriptors, stopping at the first
zero-count descriptor. -/
def engine_write (hasLock : Bool) (er pr : Nat → Bool) : List block_desc → Nat → List OpEv
  | [], _ => []
  | b :: rest, addr =>
    if b.count = 0 then []
    else
      engine_inner hasLock er pr b.size b.count addr
      ++ engine_write hasLock er pr rest (addr + b.count * b.size)

/-- write path of main after the flash reset: identify the chip; on an
unrecognized ID pair main prints and exits with code 6, so no driver
operation is ever attempted; otherwise run the per-block loop from
address 0. -/
def main_write (flash_mfg flash_dev : Nat) (er pr : Nat → Bool) : List OpEv :=
  match flash_identify flash_mfg flash_dev with
  | none => []
  | some chip => engine_write chip.set_block_lock.isSome er pr chip.blocks 0

/-- chunk sizes the memory layer uses for a count-byte transfer:
min count 56 repeatedly until the count is exhausted (statement
skeleton for the theorems below). -/
def chunkSizes (count : Nat) : List Nat :=
  if h : count = 0 then []
  else min count 56 :: chunkSizes (count - min count 56)
  termination_by count
  decreasing_by simp_wf; omega

/-- device whose every bulk transfer fails with code -7
(LIBUSB_ERROR_TIMEOUT). -/
def devFail : UsbDev := ⟨fun _ => -7, fun _ => (-7, 0, [])⟩

/-- device that succeeds and answers every read with the two bytes
0x34, 0x12. -/
def devOk34 : UsbDev := ⟨fun _ => 0, fun _ => (0, 2, [0x34, 0x12])⟩

/-- kind and address of an engine operation, forgetting the recorded
driver result. -/
def OpEv.shape : OpEv → Nat × Nat
  | .unlockOp a => (0, a)
  | .eraseOp a _ => (1, a)
  | .programOp a _ => (2, a)
  | .lockOp a => (3, a)

/-- total bytes covered by the block descriptors of a chip, up to the
zero-count sentinel. -/
def chip_blocks_bytes (c : flash_chip) : Nat :=
  ((activeBlocks c).map (fun b => b.count * b.size)).sum

/-- concatenation of the event lists produced for each word index. -/
def evConcat (f : Nat → List FlashEv) : List Nat → List FlashEv
  | [] => []
  | i :: rest => f i ++ evConcat f rest

/-- expected write trace of a completed intel_program_block run (used in
statements below). -/
def intel_block_writes (addr : Nat) (data : Nat → Nat) (size : Nat) : List FlashEv :=
  [FlashEv.w16 0 INTEL_CMD_CLEARSTATUS, FlashEv.w16 0 INTEL_CMD_READSTATUS]
  ++ evConcat (fun i => intel_program_word_evs addr i (data i))
      ((List.range (size / 2)).filter (fun i => data i != 0xffff))
  ++ [FlashEv.w16 0 INTEL_CMD_READ]

/-- expected write trace of a completed amd_program_block run. -/
def amd_block_writes (addr : Nat) (data : Nat → Nat) (size : Nat) : List FlashEv :=
  cx_flash_cmd AMD_CMD_UNLOCK_BYPASS
  ++ evConcat (fun i => amd_program_word_evs addr i (data i))
      ((List.range (size / 2)).filter (fun i => data i != 0xffff))
  ++ [FlashEv.w16 0 AMD_CMD_BYPASS_RESET1, FlashEv.w16 0 AMD_CMD_BYPASS_RESET2]

/-! ## Theorems -/

theorem engine_block_ops_shape (hL : Bool) (er pr er2 pr2 : Nat → Bool) (a : Nat) :
    (engine_block_ops hL er pr a).map OpEv.shape
      = (engine_block_ops hL er2 pr2 a).map OpEv.shape := by
  cases hL <;> simp [engine_block_ops, OpEv.shape]

theorem engine_inner_shape (hL : Bool) (er pr er2 pr2 : Nat → Bool) (size j addr : Nat) :
    (engine_inner hL er pr size j addr).map OpEv.shape
      = (engine_inner hL er2 pr2 size j addr).map OpEv.shape := by
  induction j generalizing addr with
  | zero => simp [engine_inner]
  | succ j ih =>
    simp only [engine_inner, List.map_append, ih]
    rw [engine_block_ops_shape hL er pr er2 pr2]

/-- C1 (amended): the write path of main ignores the boolean results of
erase_block and program_block; the sequence of operations performed
(their kinds and addresses) is exactly the same whatever results the
drivers report, so a failed erase or program does not halt the run. -/
theorem claim1_failures_ignored (hL : Bool) (er pr er2 pr2 : Nat → Bool)
    (bs : List block_desc) (addr : Nat) :
    (engine_write hL er pr bs addr).map OpEv.shape
      = (engine_write hL er2 pr2 bs addr).map OpEv.shape := by
  induction bs generalizing addr with
  | nil => simp [engine_write]
  | cons b rest ih =>
    by_cases hb : b.count = 0
    · simp [engine_write, hb]
    · simp only [engine_write, if_neg hb, List.map_append, ih]
      rw [engine_inner_shape hL er pr er2 pr2]

/-- C1 (counterexample): on the Intel chip, when the erase of every block
(in particular block 0) reports failure and every program reports
success, the run still programs and locks block 0 and then proceeds to
block 8192 — it does not halt at the failed erase. -/
theorem claim1_counterexample :
    (main_write 0x0089 0x88c5 (fun _ => false) (fun _ => true)).take 8
      = [OpEv.unlockOp 0, OpEv.eraseOp 0 false, OpEv.programOp 0 true, OpEv.lockOp 0,
         OpEv.unlockOp 8192, OpEv.eraseOp 8192 false, OpEv.programOp 8192 true,
         OpEv.lockOp 8192] := by
  decide

/-- C7: for every chip descriptor of the static catalog, the sum of
count * size over its block descriptors (up to the zero-count sentinel)
equals the declared total size. -/
theorem claim7_catalog_invariant (c : flash_chip) (hc : c ∈ supported_chips) :
    chip_blocks_bytes c = c.size := by
  simp only [supported_chips, List.mem_cons, List.mem_singleton] at hc
  rcases hc with h | h | h | h <;> first
    | (subst h; decide)
    | exact absurd h (List.not_mem_nil c)

/-- C7 (witness): the invariant checked on the Intel descriptor. -/
theorem claim7_witness : chip_blocks_bytes intel_chip = intel_chip.size :=
  claim7_catalog_invariant intel_chip (by decide)

/-- C8: the ID pair 0x0089 / 0x88c5 selects the 4 MiB Intel descriptor
with block sequence 8 x 8192 then 63 x 65536; any pair matching no
catalog entry makes flash_identify fail, and then main exits before any
flash erase, program or lock operation: the engine trace is empty. -/
theorem claim8_identify (m d : Nat) (er pr : Nat → Bool)
    (hnm : ∀ c ∈ supported_chips, c.mfg ≠ m ∨ c.dev ≠ d) :
    flash_identify 0x0089 0x88c5 = some intel_chip
    ∧ intel_chip.size = 4 * 1024 * 1024
    ∧ activeBlocks intel_chip = [⟨8, 8192⟩, ⟨63, 65536⟩]
    ∧ flash_identify m d = none
    ∧ main_write m d er pr = [] := by
  have hid : flash_identify m d = none := by
    rw [flash_identify, List.find?_eq_none]
    intro c hc
    rw [show supported_chips.takeWhile (fun c => c.mfg != 0) = [intel_chip, mxic_chip] from
          by decide] at hc
    simp only [List.mem_cons, List.not_mem_nil, or_false] at hc
    have hnc : c.mfg ≠ m ∨ c.dev ≠ d := by
      rcases hc with rfl | rfl
      · exact hnm intel_chip (by simp [supported_chips])
      · exact hnm mxic_chip (by simp [supported_chips])
    rcases hnc with h | h <;> simp [h]
  refine ⟨by decide, by decide, by decide, hid, ?_⟩
  rw [main_write, hid]

theorem writesOf_append (a b : List FlashEv) :
    writesOf (a ++ b) = writesOf a ++ writesOf b := by
  simp [writesOf, List.filter_append]

theorem writesOf_intel_word (addr i d : Nat) :
    writesOf (intel_program_word_evs addr i d) = intel_program_word_evs addr i d := by
  by_cases hi : i = 0 <;>
    simp [intel_program_word_evs, hi, intel_optimized_program_word, writesOf, FlashEv.isRead]

theorem writesOf_amd_word (addr i d : Nat) :
    writesOf (amd_program_word_evs addr i d) = amd_program_word_evs addr i d := by
  by_cases hi : i = 0 <;>
    simp [amd_program_word_evs, hi, amd_optimized_program_word, writesOf, FlashEv.isRead]

theorem intel_status_poll_writes (rs : Nat → Nat) (fuel : Nat) :
    ∀ k st k2 evs, intel_status_poll rs k fuel = some (st, k2, evs) → writesOf evs = [] := by
  induction fuel with
  | zero => intro k st k2 evs h; simp [intel_status_poll] at h
  | succ fuel ih =>
    intro k st k2 evs h
    rw [intel_status_poll] at h
    by_cases hr : rs k &&& INTEL_ST_READY ≠ 0
    · rw [if_pos hr] at h
      simp only [Option.some.injEq, Prod.mk.injEq] at h
      obtain ⟨-, -, rfl⟩ := h
      simp [writesOf, FlashEv.isRead]
    · rw [if_neg hr] at h
      cases hm : intel_status_poll rs (k + 1) fuel with
      | none => simp [hm] at h
      | some r =>
        obtain ⟨st2, k3, evs2⟩ := r
        have h2 := ih (k + 1) st2 k3 evs2 hm
        simp only [hm, Option.some.injEq, Prod.mk.injEq] at h
        obtain ⟨-, -, rfl⟩ := h
        simpa [writesOf, FlashEv.isRead] using h2

theorem amd_data_poll_writes (rs : Nat → Nat) (a d : Nat) (fuel : Nat) :
    ∀ k k2 evs, amd_data_poll rs a d k fuel = some (true, k2, evs) → writesOf evs = [] := by
  induction fuel with
  | zero => intro k k2 evs h; simp [amd_data_poll] at h
  | succ fuel ih =>
    intro k k2 evs h
    rw [amd_data_poll] at h
    by_cases ht : rs k ≠ d ∧ rs k &&& AMD_ST_TIMEOUT ≠ 0
    · rw [if_pos ht] at h
      simp at h
    · rw [if_neg ht] at h
      by_cases he : rs k = d
      · rw [if_pos he] at h
        simp only [Option.some.injEq, Prod.mk.injEq] at h
        obtain ⟨-, rfl⟩ := h.2
        simp [writesOf, FlashEv.isRead]
      · rw [if_neg he] at h
        cases hm : amd_data_poll rs a d (k + 1) fuel with
        | none => simp [hm] at h
        | some r =>
          obtain ⟨ok2, k3, evs2⟩ := r
          simp only [hm, Option.some.injEq, Prod.mk.injEq] at h
          obtain ⟨rfl, -, rfl⟩ := h
          have h2 := ih (k + 1) k3 evs2 hm
          simpa [writesOf, FlashEv.isRead] using h2

/-- writes of a successfully completed run of the word loop of
intel_program_block: exactly the word sequences of the indices whose
data differs from 0xffff, in list order, followed by the read-array
command. -/
theorem intel_program_loop_writes (rs : Nat → Nat) (addr : Nat) (data : Nat → Nat)
    (slow : Bool) (fuel : Nat) :
    ∀ l k evs, intel_program_loop rs addr data slow fuel l k = some (true, evs) →
      writesOf evs
        = evConcat (fun i => intel_program_word_evs addr i (data i))
            (l.filter (fun i => data i != 0xffff)) ++ [FlashEv.w16 0 INTEL_CMD_READ] := by
  intro l
  induction l with
  | nil =>
    intro k evs h
    rw [intel_program_loop] at h
    simp only [Option.some.injEq, Prod.mk.injEq] at h
    obtain ⟨-, rfl⟩ := h
    simp [writesOf, FlashEv.isRead, evConcat]
  | cons i rest ih =>
    intro k evs h
    rw [intel_program_loop] at h
    by_cases hi : data i = 0xffff
    · rw [if_pos hi] at h
      have := ih k evs h
      simpa [hi, List.filter_cons] using this
    · rw [if_neg hi] at h
      have hfilter : (i :: rest).filter (fun j => data j != 0xffff)
          = i :: rest.filter (fun j => data j != 0xffff) := by
        simp [List.filter_cons, hi]
      rw [hfilter]
      cases slow with
      | false =>
        rw [if_neg (by simp : ¬((false : Bool) = true))] at h
        cases hm : intel_program_loop rs addr data false fuel rest k with
        | none => simp [hm] at h
        | some r =>
          obtain ⟨ok2, evs2⟩ := r
          simp only [hm, Option.some.injEq, Prod.mk.injEq] at h
          obtain ⟨rfl, rfl⟩ := h
          rw [writesOf_append, writesOf_intel_word, ih k evs2 hm]
          simp [evConcat]
      | true =>
        rw [if_pos (rfl : (true : Bool) = true)] at h
        cases hp : intel_status_poll rs k fuel with
        | none => simp [hp] at h
        | some r =>
          obtain ⟨status, k2, pevs⟩ := r
          simp only [hp] at h
          by_cases hs : status &&& INTEL_ST_ERROR_MASK ≠ 0
          · rw [if_pos hs] at h
            simp at h
          · rw [if_neg hs] at h
            cases hm : intel_program_loop rs addr data true fuel rest k2 with
            | none => simp [hm] at h
            | some r2 =>
              obtain ⟨ok2, evs2⟩ := r2
              simp only [hm, Option.some.injEq, Prod.mk.injEq] at h
              obtain ⟨rfl, rfl⟩ := h
              rw [writesOf_append, writesOf_append, writesOf_intel_word,
                  intel_status_poll_writes rs fuel k status k2 pevs hp,
                  ih k2 evs2 hm]
              simp [evConcat]

/-- writes of a successfully completed run of the word loop of
amd_program_block. -/
theorem amd_program_loop_writes (rs : Nat → Nat) (addr : Nat) (data : Nat → Nat)
    (slow : Bool) (fuel : Nat) :
    ∀ l k evs, amd_program_loop rs addr data slow fuel l k = some (true, evs) →
      writesOf evs
        = evConcat (fun i => amd_program_word_evs addr i (data i))
            (l.filter (fun i => data i != 0xffff))
          ++ [FlashEv.w16 0 AMD_CMD_BYPASS_RESET1, FlashEv.w16 0 AMD_CMD_BYPASS_RESET2] := by
  intro l
  induction l with
  | nil =>
    intro k evs h
    rw [amd_program_loop] at h
    simp only [Option.some.injEq, Prod.mk.injEq] at h
    obtain ⟨-, rfl⟩ := h
    simp [writesOf, FlashEv.isRead, evConcat]
  | cons i rest ih =>
    intro k evs h
    rw [amd_program_loop] at h
    by_cases hi : data i = 0xffff
    · rw [if_pos hi] at h
      have := ih k evs h
      simpa [hi, List.filter_cons] using this
    · rw [if_neg hi] at h
      have hfilter : (i :: rest).filter (fun j => data j != 0xffff)
          = i :: rest.filter (fun j => data j != 0xffff) := by
        simp [List.filter_cons, hi]
      rw [hfilter]
      cases slow with
      | false =>
        rw [if_neg (by simp : ¬((false : Bool) = true))] at h
        cases hm : amd_program_loop rs addr data false fuel rest k with
        | none => simp [hm] at h
        | some r =>
          obtain ⟨ok2, evs2⟩ := r
          simp only [hm, Option.some.injEq, Prod.mk.injEq] at h
          obtain ⟨rfl, rfl⟩ := h
          rw [writesOf_append, writesOf_amd_word, ih k evs2 hm]
          simp [evConcat]
      | true =>
        rw [if_pos (rfl : (true : Bool) = true)] at h
        cases hp : amd_data_poll rs (addr + i * 2) (data i) k fuel with
        | none => simp [hp] at h
        | some r =>
          obtain ⟨ok1, k2, pevs⟩ := r
          simp only [hp] at h
          cases ok1 with
          | false =>
            rw [if_neg (by simp : ¬((false : Bool) = true))] at h
            simp at h
          | true =>
            rw [if_pos (rfl : (true : Bool) = true)] at h
            cases hm : amd_program_loop rs addr data true fuel rest k2 with
            | none => simp [hm] at h
            | some r2 =>
              obtain ⟨ok2, evs2⟩ := r2
              simp only [hm, Option.some.injEq, Prod.mk.injEq] at h
              obtain ⟨rfl, rfl⟩ := h
              rw [writesOf_append, writesOf_append, writesOf_amd_word,
                  amd_data_poll_writes rs (addr + i * 2) (data i) fuel k k2 pevs hp,
                  ih k2 evs2 hm]
              simp [evConcat]

theorem intel_program_block_writes (rs : Nat → Nat) (addr : Nat) (data : Nat → Nat)
    (size : Nat) (slow : Bool) (fuel : Nat) (evs : List FlashEv)
    (h : intel_program_block rs addr data size slow fuel = some (true, evs)) :
    writesOf evs = intel_block_writes addr data size := by
  rw [intel_program_block] at h
  cases hm : intel_program_loop rs addr data slow fuel (List.range (size / 2)) 0 with
  | none => simp [hm] at h
  | some r =>
    obtain ⟨ok, evs0⟩ := r
    simp only [hm, Option.some.injEq, Prod.mk.injEq] at h
    obtain ⟨rfl, rfl⟩ := h
    have h2 := intel_program_loop_writes rs addr data slow fuel (List.range (size / 2)) 0 evs0 hm
    rw [show writesOf (FlashEv.w16 0 INTEL_CMD_CLEARSTATUS :: FlashEv.w16 0 INTEL_CMD_READSTATUS :: evs0)
          = FlashEv.w16 0 INTEL_CMD_CLEARSTATUS :: FlashEv.w16 0 INTEL_CMD_READSTATUS :: writesOf evs0 from
        by simp [writesOf, FlashEv.isRead], h2, intel_block_writes]
    simp

theorem amd_program_block_writes (rs : Nat → Nat) (addr : Nat) (data : Nat → Nat)
    (size : Nat) (slow : Bool) (fuel : Nat) (evs : List FlashEv)
    (h : amd_program_block rs addr data size slow fuel = some (true, evs)) :
    writesOf evs = amd_block_writes addr data size := by
  rw [amd_program_block] at h
  cases hm : amd_program_loop rs addr data slow fuel (List.range (size / 2)) 0 with
  | none => simp [hm] at h
  | some r =>
    obtain ⟨ok, evs0⟩ := r
    simp only [hm, Option.some.injEq, Prod.mk.injEq] at h
    obtain ⟨rfl, rfl⟩ := h
    have h2 := amd_program_loop_writes rs addr data slow fuel (List.range (size / 2)) 0 evs0 hm
    rw [writesOf_append, h2, amd_block_writes,
        show writesOf (cx_flash_cmd AMD_CMD_UNLOCK_BYPASS) = cx_flash_cmd AMD_CMD_UNLOCK_BYPASS from
          by simp [writesOf, cx_flash_cmd, FlashEv.isRead]]
    simp

/-- behaviour of the word loop when slow mode is off: no fuel is used, no
read is issued, and the loop always completes successfully. -/
theorem intel_program_loop_fast (rs : Nat → Nat) (addr : Nat) (data : Nat → Nat) (fuel : Nat) :
    ∀ l k, intel_program_loop rs addr data false fuel l k
      = some (true, evConcat (fun i => intel_program_word_evs addr i (data i))
          (l.filter (fun i => data i != 0xffff)) ++ [FlashEv.w16 0 INTEL_CMD_READ]) := by
  intro l
  induction l with
  | nil => intro k; rw [intel_program_loop]; simp [evConcat]
  | cons i rest ih =>
    intro k
    rw [intel_program_loop]
    by_cases hi : data i = 0xffff
    · rw [if_pos hi, ih k]
      simp [List.filter_cons, hi]
    · rw [if_neg hi, if_neg (by simp : ¬((false : Bool) = true))]
      simp only [ih k]
      simp [List.filter_cons, hi, evConcat]

theorem amd_program_loop_fast (rs : Nat → Nat) (addr : Nat) (data : Nat → Nat) (fuel : Nat) :
    ∀ l k, amd_program_loop rs addr data false fuel l k
      = some (true, evConcat (fun i => amd_program_word_evs addr i (data i))
          (l.filter (fun i => data i != 0xffff))
          ++ [FlashEv.w16 0 AMD_CMD_BYPASS_RESET1, FlashEv.w16 0 AMD_CMD_BYPASS_RESET2]) := by
  intro l
  induction l with
  | nil => intro k; rw [amd_program_loop]; simp [evConcat]
  | cons i rest ih =>
    intro k
    rw [amd_program_loop]
    by_cases hi : data i = 0xffff
    · rw [if_pos hi, ih k]
      simp [List.filter_cons, hi]
    · rw [if_neg hi, if_neg (by simp : ¬((false : Bool) = true))]
      simp only [ih k]
      simp [List.filter_cons, hi, evConcat]

theorem intel_word_evs_isRead (addr i d : Nat) :
    ∀ e ∈ intel_program_word_evs addr i d, e.isRead = false := by
  by_cases hi : i = 0 <;>
    simp [intel_program_word_evs, hi, intel_optimized_program_word, FlashEv.isRead]

theorem amd_word_evs_isRead (addr i d : Nat) :
    ∀ e ∈ amd_program_word_evs addr i d, e.isRead = false := by
  by_cases hi : i = 0 <;>
    simp [amd_program_word_evs, hi, amd_optimized_program_word, FlashEv.isRead]

theorem evConcat_isRead_false (f : Nat → List FlashEv)
    (hf : ∀ i, ∀ e ∈ f i, e.isRead = false) :
    ∀ l, ∀ e ∈ evConcat f l, e.isRead = false := by
  intro l
  induction l with
  | nil => simp [evConcat]
  | cons i rest ih =>
    intro e he
    rw [evConcat] at he
    rcases List.mem_append.mp he with h | h
    · exact hf i e h
    · exact ih e h

/-- C3: for both chip drivers, a program-block run that completes
successfully writes exactly the words whose image value differs from
0xffff: its write trace is the setup commands, then the per-word write
sequence of precisely the indices of range (size / 2) whose data is not
0xffff (in order), then the closing commands.  In particular no program
command and no data write is ever issued for a 0xffff word. -/
theorem claim3_ffff_words_skipped (rs : Nat → Nat) (addr : Nat) (data : Nat → Nat)
    (size : Nat) (slow : Bool) (fuel : Nat) (evsI evsA : List FlashEv) :
    (intel_program_block rs addr data size slow fuel = some (true, evsI) →
      writesOf evsI = intel_block_writes addr data size)
    ∧ (amd_program_block rs addr data size slow fuel = some (true, evsA) →
      writesOf evsA = amd_block_writes addr data size) :=
  ⟨fun h => intel_program_block_writes rs addr data size slow fuel evsI h,
   fun h => amd_program_block_writes rs addr data size slow fuel evsA h⟩

/-- C4: in a successfully completed program-block run the programmed word
indices are strictly increasing (so the emitted word addresses are
strictly increasing), the word at index 0, when programmed, uses the
unmerged discrete command write followed by the discrete data write, and
every word at index i > 0 is written by the single merged event at
address addr + 2 * i - 2 carrying the program command word and the data
word. -/
theorem claim4_word_order (rs : Nat → Nat) (addr : Nat) (data : Nat → Nat)
    (size : Nat) (slow : Bool) (fuel : Nat) (evsI evsA : List FlashEv) :
    (intel_program_block rs addr data size slow fuel = some (true, evsI) →
      ∃ ixs, ixs = (List.range (size / 2)).filter (fun i => data i != 0xffff)
        ∧ writesOf evsI
            = [FlashEv.w16 0 INTEL_CMD_CLEARSTATUS, FlashEv.w16 0 INTEL_CMD_READSTATUS]
              ++ evConcat (fun i => intel_program_word_evs addr i (data i)) ixs
              ++ [FlashEv.w16 0 INTEL_CMD_READ]
        ∧ ixs.Pairwise (· < ·)
        ∧ (∀ i ∈ ixs, i = 0 →
            intel_program_word_evs addr i (data i)
              = [FlashEv.w16 addr INTEL_CMD_PROGRAM, FlashEv.w16 addr (data i)])
        ∧ (∀ i ∈ ixs, 0 < i →
            intel_program_word_evs addr i (data i)
              = [FlashEv.w2x16 (addr + 2 * i - 2) INTEL_CMD_PROGRAM (data i)]))
    ∧ (amd_program_block rs addr data size slow fuel = some (true, evsA) →
      ∃ ixs, ixs = (List.range (size / 2)).filter (fun i => data i != 0xffff)
        ∧ writesOf evsA
            = cx_flash_cmd AMD_CMD_UNLOCK_BYPASS
              ++ evConcat (fun i => amd_program_word_evs addr i (data i)) ixs
              ++ [FlashEv.w16 0 AMD_CMD_BYPASS_RESET1, FlashEv.w16 0 AMD_CMD_BYPASS_RESET2]
        ∧ ixs.Pairwise (· < ·)
        ∧ (∀ i ∈ ixs, i = 0 →
            amd_program_word_evs addr i (data i)
              = [FlashEv.w16 addr AMD_CMD_PROGRAM, FlashEv.w16 addr (data i)])
        ∧ (∀ i ∈ ixs, 0 < i →
            amd_program_word_evs addr i (data i)
              = [FlashEv.w2x16 (addr + 2 * i - 2) AMD_CMD_PROGRAM (data i)])) := by
  constructor
  · intro h
    refine ⟨_, rfl, ?_, ?_, ?_, ?_⟩
    · exact intel_program_block_writes rs addr data size slow fuel evsI h
    · exact List.Pairwise.sublist (List.filter_sublist _) (List.pairwise_lt_range _)
    · intro i hi h0
      subst h0
      simp [intel_program_word_evs]
    · intro i hi h0
      rw [intel_program_word_evs, if_neg (Nat.pos_iff_ne_zero.mp h0),
          intel_optimized_program_word, Nat.mul_comm]
  · intro h
    refine ⟨_, rfl, ?_, ?_, ?_, ?_⟩
    · exact amd_program_block_writes rs addr data size slow fuel evsA h
    · exact List.Pairwise.sublist (List.filter_sublist _) (List.pairwise_lt_range _)
    · intro i hi h0
      subst h0
      simp [amd_program_word_evs]
    · intro i hi h0
      rw [amd_program_word_evs, if_neg (Nat.pos_iff_ne_zero.mp h0),
          amd_optimized_program_word, Nat.mul_comm]

/-- C3 (witness): on a 3-word block at 0x2000 whose middle word is 0xffff,
both drivers program exactly words 0 and 2. -/
theorem claim3_witness :
    writesOf [FlashEv.w16 0 0x50, FlashEv.w16 0 0x70, FlashEv.w16 0x2000 0x40,
        FlashEv.w16 0x2000 0x1111, FlashEv.w2x16 0x2002 0x40 0x1111, FlashEv.w16 0 0xff]
      = intel_block_writes 0x2000 (fun i => if i = 1 then 0xffff else 0x1111) 6
    ∧ writesOf [FlashEv.w16 0xaaa 0xaa, FlashEv.w16 0x554 0x55, FlashEv.w16 0xaaa 0x20,
        FlashEv.w16 0x2000 0xa0, FlashEv.w16 0x2000 0x1111, FlashEv.w2x16 0x2002 0xa0 0x1111,
        FlashEv.w16 0 0x90, FlashEv.w16 0 0x00]
      = amd_block_writes 0x2000 (fun i => if i = 1 then 0xffff else 0x1111) 6 :=
  ⟨(claim3_ffff_words_skipped (fun _ => 0x80) 0x2000 (fun i => if i = 1 then 0xffff else 0x1111)
      6 false 0
      [FlashEv.w16 0 0x50, FlashEv.w16 0 0x70, FlashEv.w16 0x2000 0x40,
       FlashEv.w16 0x2000 0x1111, FlashEv.w2x16 0x2002 0x40 0x1111, FlashEv.w16 0 0xff]
      [FlashEv.w16 0xaaa 0xaa, FlashEv.w16 0x554 0x55, FlashEv.w16 0xaaa 0x20,
       FlashEv.w16 0x2000 0xa0, FlashEv.w16 0x2000 0x1111, FlashEv.w2x16 0x2002 0xa0 0x1111,
       FlashEv.w16 0 0x90, FlashEv.w16 0 0x00]).1 (by decide),
   (claim3_ffff_words_skipped (fun _ => 0x80) 0x2000 (fun i => if i = 1 then 0xffff else 0x1111)
      6 false 0
      [FlashEv.w16 0 0x50, FlashEv.w16 0 0x70, FlashEv.w16 0x2000 0x40,
       FlashEv.w16 0x2000 0x1111, FlashEv.w2x16 0x2002 0x40 0x1111, FlashEv.w16 0 0xff]
      [FlashEv.w16 0xaaa 0xaa, FlashEv.w16 0x554 0x55, FlashEv.w16 0xaaa 0x20,
       FlashEv.w16 0x2000 0xa0, FlashEv.w16 0x2000 0x1111, FlashEv.w2x16 0x2002 0xa0 0x1111,
       FlashEv.w16 0 0x90, FlashEv.w16 0 0x00]).2 (by decide)⟩

/-- C4 (witness): the same 3-word run at 0x2000 exhibits the ordering and
the unmerged/merged split for the Intel driver. -/
theorem claim4_witness :
    ∃ ixs, ixs = (List.range (6 / 2)).filter
        (fun i => (fun j => if j = 1 then 0xffff else 0x1111) i != 0xffff)
      ∧ writesOf [FlashEv.w16 0 0x50, FlashEv.w16 0 0x70, FlashEv.w16 0x2000 0x40,
            FlashEv.w16 0x2000 0x1111, FlashEv.w2x16 0x2002 0x40 0x1111, FlashEv.w16 0 0xff]
          = [FlashEv.w16 0 INTEL_CMD_CLEARSTATUS, FlashEv.w16 0 INTEL_CMD_READSTATUS]
            ++ evConcat (fun i => intel_program_word_evs 0x2000 i
                ((fun j => if j = 1 then 0xffff else 0x1111) i)) ixs
            ++ [FlashEv.w16 0 INTEL_CMD_READ]
      ∧ ixs.Pairwise (· < ·)
      ∧ (∀ i ∈ ixs, i = 0 →
          intel_program_word_evs 0x2000 i ((fun j => if j = 1 then 0xffff else 0x1111) i)
            = [FlashEv.w16 0x2000 INTEL_CMD_PROGRAM,
               FlashEv.w16 0x2000 ((fun j => if j = 1 then 0xffff else 0x1111) i)])
      ∧ (∀ i ∈ ixs, 0 < i →
          intel_program_word_evs 0x2000 i ((fun j => if j = 1 then 0xffff else 0x1111) i)
            = [FlashEv.w2x16 (0x2000 + 2 * i - 2) INTEL_CMD_PROGRAM
                ((fun j => if j = 1 then 0xffff else 0x1111) i)]) :=
  (claim4_word_order (fun _ => 0x80) 0x2000 (fun j => if j = 1 then 0xffff else 0x1111)
      6 false 0
      [FlashEv.w16 0 0x50, FlashEv.w16 0 0x70, FlashEv.w16 0x2000 0x40,
       FlashEv.w16 0x2000 0x1111, FlashEv.w2x16 0x2002 0x40 0x1111, FlashEv.w16 0 0xff]
      [FlashEv.w16 0xaaa 0xaa, FlashEv.w16 0x554 0x55, FlashEv.w16 0xaaa 0x20,
       FlashEv.w16 0x2000 0xa0, FlashEv.w16 0x2000 0x1111, FlashEv.w2x16 0x2002 0xa0 0x1111,
       FlashEv.w16 0 0x90, FlashEv.w16 0 0x00]).1 (by decide)

/-- C10: with slow = false neither driver ever reads the flash (no status
read, no data polling) and program-block always returns success, whatever
the read oracle would have answered; a failure can therefore only be
reported in slow mode. -/
theorem claim10_fast_mode_always_succeeds (rs : Nat → Nat) (addr : Nat) (data : Nat → Nat)
    (size fuel : Nat) :
    (∃ evs, intel_program_block rs addr data size false fuel = some (true, evs)
        ∧ ∀ e ∈ evs, e.isRead = false)
    ∧ (∃ evs, amd_program_block rs addr data size false fuel = some (true, evs)
        ∧ ∀ e ∈ evs, e.isRead = false) := by
  constructor
  · have hl := intel_program_loop_fast rs addr data fuel (List.range (size / 2)) 0
    have hI : intel_program_block rs addr data size false fuel
        = some (true, FlashEv.w16 0 INTEL_CMD_CLEARSTATUS :: FlashEv.w16 0 INTEL_CMD_READSTATUS ::
            (evConcat (fun i => intel_program_word_evs addr i (data i))
                ((List.range (size / 2)).filter (fun i => data i != 0xffff))
              ++ [FlashEv.w16 0 INTEL_CMD_READ])) := by
      simp only [intel_program_block, hl]
    refine ⟨_, hI, ?_⟩
    intro e he
    simp only [List.mem_cons, List.mem_append, List.mem_singleton, List.not_mem_nil,
      or_false] at he
    rcases he with rfl | rfl | he | rfl
    · rfl
    · rfl
    · exact evConcat_isRead_false _ (fun i => intel_word_evs_isRead addr i (data i)) _ e he
    · rfl
  · have hl := amd_program_loop_fast rs addr data fuel (List.range (size / 2)) 0
    have hA : amd_program_block rs addr data size false fuel
        = some (true, cx_flash_cmd AMD_CMD_UNLOCK_BYPASS
            ++ (evConcat (fun i => amd_program_word_evs addr i (data i))
                  ((List.range (size / 2)).filter (fun i => data i != 0xffff))
                ++ [FlashEv.w16 0 AMD_CMD_BYPASS_RESET1, FlashEv.w16 0 AMD_CMD_BYPASS_RESET2])) := by
      simp only [amd_program_block, hl]
    refine ⟨_, hA, ?_⟩
    intro e he
    simp only [cx_flash_cmd, List.mem_cons, List.mem_append, List.mem_singleton,
      List.cons_append, List.nil_append, List.not_mem_nil, or_false] at he
    rcases he with rfl | rfl | rfl | he | rfl | rfl
    · rfl
    · rfl
    · rfl
    · exact evConcat_isRead_false _ (fun i => amd_word_evs_isRead addr i (data i)) _ e he
    · rfl
    · rfl

/-- full description of a successful Intel status poll starting at read
index k: there is a final index m with the ready bit clear strictly
before m and set at m; the events are the reads of indices k..m. -/
theorem intel_status_poll_spec (rs : Nat → Nat) (fuel : Nat) :
    ∀ k st k2 evs, intel_status_poll rs k fuel = some (st, k2, evs) →
      ∃ m, k ≤ m ∧ st = rs m ∧ k2 = m + 1
        ∧ evs = (List.range' k (m + 1 - k)).map (fun j => FlashEv.r16 0 (rs j))
        ∧ (∀ j, k ≤ j → j < m → rs j &&& INTEL_ST_READY = 0)
        ∧ rs m &&& INTEL_ST_READY ≠ 0 := by
  induction fuel with
  | zero => intro k st k2 evs h; simp [intel_status_poll] at h
  | succ fuel ih =>
    intro k st k2 evs h
    rw [intel_status_poll] at h
    by_cases hr : rs k &&& INTEL_ST_READY ≠ 0
    · rw [if_pos hr] at h
      simp only [Option.some.injEq, Prod.mk.injEq] at h
      obtain ⟨rfl, rfl, rfl⟩ := h
      refine ⟨k, Nat.le_refl k, rfl, rfl, ?_, ?_, hr⟩
      · rw [Nat.add_sub_cancel_left, List.range'_one]
        simp
      · intro j hj1 hj2
        omega
    · rw [if_neg hr] at h
      cases hm : intel_status_poll rs (k + 1) fuel with
      | none => simp [hm] at h
      | some r =>
        obtain ⟨st2, k3, evs2⟩ := r
        obtain ⟨m, hkm, hst, hk3, hevs, hmid, hready⟩ := ih (k + 1) st2 k3 evs2 hm
        simp only [hm, Option.some.injEq, Prod.mk.injEq] at h
        obtain ⟨rfl, rfl, rfl⟩ := h
        refine ⟨m, by omega, hst, hk3, ?_, ?_, hready⟩
        · rw [hevs, show m + 1 - k = (m + 1 - (k + 1)) + 1 from by omega,
              List.range'_succ]
          simp
        · intro j hj1 hj2
          rcases Nat.eq_or_lt_of_le hj1 with rfl | hlt
          · exact not_ne_iff.mp hr
          · exact hmid j hlt hj2

/-- C6: a completed intel_erase_block run clears the status register,
issues the read-status command, writes the erase and erase-confirm
commands at the block address, polls the status register exactly until
the first read with the ready bit set, returns the chip to read-array
mode, and succeeds exactly when no bit of the 0x5a error mask is set in
the final status (on error the status is decoded for display and failure
is returned). -/
theorem claim6_intel_erase_block (rs : Nat → Nat) (addr fuel : Nat) (ok : Bool)
    (evs : List FlashEv) (h : intel_erase_block rs addr fuel = some (ok, evs)) :
    ∃ m, (∀ j < m, rs j &&& INTEL_ST_READY = 0) ∧ rs m &&& INTEL_ST_READY ≠ 0
      ∧ evs = [FlashEv.w16 0 INTEL_CMD_CLEARSTATUS, FlashEv.w16 0 INTEL_CMD_READSTATUS,
               FlashEv.w16 addr INTEL_CMD_ERASE, FlashEv.w16 addr INTEL_CMD_ERASECONFIRM]
              ++ (List.range (m + 1)).map (fun j => FlashEv.r16 0 (rs j))
              ++ [FlashEv.w16 0 INTEL_CMD_READ]
      ∧ (ok = true ↔ rs m &&& INTEL_ST_ERROR_MASK = 0) := by
  rw [intel_erase_block] at h
  cases hp : intel_status_poll rs 0 fuel with
  | none => simp [hp] at h
  | some r =>
    obtain ⟨status, k2, pevs⟩ := r
    obtain ⟨m, -, hst, -, hevs, hmid, hready⟩ := intel_status_poll_spec rs fuel 0 status k2 pevs hp
    subst hst
    simp only [hp] at h
    rw [hevs, Nat.sub_zero, ← List.range_eq_range'] at h
    by_cases hs : rs m &&& INTEL_ST_ERROR_MASK ≠ 0
    · rw [if_pos hs] at h
      simp only [Option.some.injEq, Prod.mk.injEq] at h
      obtain ⟨rfl, rfl⟩ := h
      exact ⟨m, fun j hj => hmid j (Nat.zero_le j) hj, hready, by simp, by simp [hs]⟩
    · rw [if_neg hs] at h
      simp only [Option.some.injEq, Prod.mk.injEq] at h
      obtain ⟨rfl, rfl⟩ := h
      exact ⟨m, fun j hj => hmid j (Nat.zero_le j) hj, hready, by simp,
             by simp [not_ne_iff.mp hs]⟩

/-- C6 (witness): a poll whose first status read is 0x80 (ready, no error
bit) makes the erase of block 0x2000 succeed with the expected trace. -/
theorem claim6_witness :
    ∃ m, (∀ j < m, (fun _ => 0x80 : Nat → Nat) j &&& INTEL_ST_READY = 0)
      ∧ (fun _ => 0x80 : Nat → Nat) m &&& INTEL_ST_READY ≠ 0
      ∧ [FlashEv.w16 0 INTEL_CMD_CLEARSTATUS, FlashEv.w16 0 INTEL_CMD_READSTATUS,
         FlashEv.w16 0x2000 INTEL_CMD_ERASE, FlashEv.w16 0x2000 INTEL_CMD_ERASECONFIRM,
         FlashEv.r16 0 0x80, FlashEv.w16 0 INTEL_CMD_READ]
          = [FlashEv.w16 0 INTEL_CMD_CLEARSTATUS, FlashEv.w16 0 INTEL_CMD_READSTATUS,
             FlashEv.w16 0x2000 INTEL_CMD_ERASE, FlashEv.w16 0x2000 INTEL_CMD_ERASECONFIRM]
            ++ (List.range (m + 1)).map (fun j => FlashEv.r16 0 ((fun _ => 0x80 : Nat → Nat) j))
            ++ [FlashEv.w16 0 INTEL_CMD_READ]
      ∧ (true = true ↔ (fun _ => 0x80 : Nat → Nat) m &&& INTEL_ST_ERROR_MASK = 0) :=
  claim6_intel_erase_block (fun _ => 0x80) 0x2000 1 true
    [FlashEv.w16 0 INTEL_CMD_CLEARSTATUS, FlashEv.w16 0 INTEL_CMD_READSTATUS,
     FlashEv.w16 0x2000 INTEL_CMD_ERASE, FlashEv.w16 0x2000 INTEL_CMD_ERASECONFIRM,
     FlashEv.r16 0 0x80, FlashEv.w16 0 INTEL_CMD_READ] (by decide)

/-- full description of a terminating AMD erase data poll starting at
read index k: statuses strictly before the final index m have both the
data-poll and the timeout bit clear; at m either the data-poll bit is set
(success, reads only) or the data-poll bit is clear with the timeout bit
set (failure: the reads are followed by the single reset command write
and polling stops immediately). -/
theorem amd_erase_poll_spec (rs : Nat → Nat) (addr : Nat) (fuel : Nat) :
    ∀ k ok evs, amd_erase_poll rs addr k fuel = some (ok, evs) →
      ∃ m, k ≤ m
        ∧ (∀ j, k ≤ j → j < m → rs j &&& AMD_ST_DATAPOLL = 0 ∧ rs j &&& AMD_ST_TIMEOUT = 0)
        ∧ ((ok = true ∧ rs m &&& AMD_ST_DATAPOLL ≠ 0
              ∧ evs = (List.range' k (m + 1 - k)).map (fun j => FlashEv.r16 addr (rs j)))
          ∨ (ok = false ∧ rs m &&& AMD_ST_DATAPOLL = 0 ∧ rs m &&& AMD_ST_TIMEOUT ≠ 0
              ∧ evs = (List.range' k (m + 1 - k)).map (fun j => FlashEv.r16 addr (rs j))
                      ++ [FlashEv.w16 0 AMD_CMD_RESET])) := by
  induction fuel with
  | zero => intro k ok evs h; simp [amd_erase_poll] at h
  | succ fuel ih =>
    intro k ok evs h
    rw [amd_erase_poll] at h
    by_cases ht : rs k &&& AMD_ST_DATAPOLL = 0 ∧ rs k &&& AMD_ST_TIMEOUT ≠ 0
    · rw [if_pos ht] at h
      simp only [Option.some.injEq, Prod.mk.injEq] at h
      obtain ⟨rfl, rfl⟩ := h
      refine ⟨k, Nat.le_refl k, fun j hj1 hj2 => by omega, Or.inr ⟨rfl, ht.1, ht.2, ?_⟩⟩
      rw [Nat.add_sub_cancel_left, List.range'_one]
      simp
    · rw [if_neg ht] at h
      by_cases hd : rs k &&& AMD_ST_DATAPOLL ≠ 0
      · rw [if_pos hd] at h
        simp only [Option.some.injEq, Prod.mk.injEq] at h
        obtain ⟨rfl, rfl⟩ := h
        refine ⟨k, Nat.le_refl k, fun j hj1 hj2 => by omega, Or.inl ⟨rfl, hd, ?_⟩⟩
        rw [Nat.add_sub_cancel_left, List.range'_one]
        simp
      · rw [if_neg hd] at h
        have hd0 : rs k &&& AMD_ST_DATAPOLL = 0 := not_ne_iff.mp hd
        have ht0 : rs k &&& AMD_ST_TIMEOUT = 0 := by
          by_contra hne
          exact ht ⟨hd0, hne⟩
        cases hm : amd_erase_poll rs addr (k + 1) fuel with
        | none => simp [hm] at h
        | some r =>
          obtain ⟨ok2, evs2⟩ := r
          obtain ⟨m, hkm, hmid, hcase⟩ := ih (k + 1) ok2 evs2 hm
          simp only [hm, Option.some.injEq, Prod.mk.injEq] at h
          obtain ⟨rfl, rfl⟩ := h
          refine ⟨m, by omega, ?_, ?_⟩
          · intro j hj1 hj2
            rcases Nat.eq_or_lt_of_le hj1 with rfl | hlt
            · exact ⟨hd0, ht0⟩
            · exact hmid j hlt hj2
          · have hrange : List.range' k (m + 1 - k)
                = k :: List.range' (k + 1) (m + 1 - (k + 1)) := by
              rw [show m + 1 - k = (m + 1 - (k + 1)) + 1 from by omega, List.range'_succ]
            rcases hcase with ⟨hok, hbit, hevs⟩ | ⟨hok, hbit1, hbit2, hevs⟩
            · exact Or.inl ⟨hok, hbit, by rw [hrange, hevs]; simp⟩
            · exact Or.inr ⟨hok, hbit1, hbit2, by rw [hrange, hevs]; simp⟩

/-- C9: during the data polling of amd_erase_block, every status read
before the final one has both bit 7 (data-poll) and bit 5 (timeout)
clear; if the final read has bit 7 clear and bit 5 set the operation
immediately writes the reset command, performs no further polling read
and fails, and otherwise polling stopped because bit 7 was set, in which
case the operation succeeds. -/
theorem claim9_amd_erase_timeout (rs : Nat → Nat) (addr fuel : Nat) (ok : Bool)
    (evs : List FlashEv) (h : amd_erase_block rs addr fuel = some (ok, evs)) :
    ∃ m, (∀ j < m, rs j &&& AMD_ST_DATAPOLL = 0 ∧ rs j &&& AMD_ST_TIMEOUT = 0)
      ∧ ((ok = true ∧ rs m &&& AMD_ST_DATAPOLL ≠ 0
            ∧ evs = cx_flash_cmd AMD_CMD_ERASE_PREPARE
                ++ [FlashEv.w16 0xaaa 0xaa, FlashEv.w16 0x554 0x55,
                    FlashEv.w16 addr AMD_CMD_ERASE_SECTOR]
                ++ (List.range (m + 1)).map (fun j => FlashEv.r16 addr (rs j)))
        ∨ (ok = false ∧ rs m &&& AMD_ST_DATAPOLL = 0 ∧ rs m &&& AMD_ST_TIMEOUT ≠ 0
            ∧ evs = cx_flash_cmd AMD_CMD_ERASE_PREPARE
                ++ [FlashEv.w16 0xaaa 0xaa, FlashEv.w16 0x554 0x55,
                    FlashEv.w16 addr AMD_CMD_ERASE_SECTOR]
                ++ (List.range (m + 1)).map (fun j => FlashEv.r16 addr (rs j))
                ++ [FlashEv.w16 0 AMD_CMD_RESET])) := by
  rw [amd_erase_block] at h
  cases hp : amd_erase_poll rs addr 0 fuel with
  | none => simp [hp] at h
  | some r =>
    obtain ⟨ok2, evs2⟩ := r
    obtain ⟨m, -, hmid, hcase⟩ := amd_erase_poll_spec rs addr fuel 0 ok2 evs2 hp
    simp only [hp, Option.some.injEq, Prod.mk.injEq] at h
    obtain ⟨rfl, rfl⟩ := h
    refine ⟨m, fun j hj => hmid j (Nat.zero_le j) hj, ?_⟩
    rcases hcase with ⟨hok, hbit, hevs⟩ | ⟨hok, hbit1, hbit2, hevs⟩
    · refine Or.inl ⟨hok, hbit, ?_⟩
      rw [hevs, Nat.sub_zero, ← List.range_eq_range']
    · refine Or.inr ⟨hok, hbit1, hbit2, ?_⟩
      rw [hevs, Nat.sub_zero, ← List.range_eq_range']
      simp

/-- C9 (witness): a first status read of 0x20 (timeout set, data-poll
clear) makes the erase of block 0x4000 fail immediately after a single
poll read followed by the reset command. -/
theorem claim9_witness :
    ∃ m, (∀ j < m, (fun _ => 0x20 : Nat → Nat) j &&& AMD_ST_DATAPOLL = 0
            ∧ (fun _ => 0x20 : Nat → Nat) j &&& AMD_ST_TIMEOUT = 0)
      ∧ ((false = true ∧ (fun _ => 0x20 : Nat → Nat) m &&& AMD_ST_DATAPOLL ≠ 0
            ∧ [FlashEv.w16 0xaaa 0xaa, FlashEv.w16 0x554 0x55, FlashEv.w16 0xaaa 0x80,
               FlashEv.w16 0xaaa 0xaa, FlashEv.w16 0x554 0x55, FlashEv.w16 0x4000 0x30,
               FlashEv.r16 0x4000 0x20, FlashEv.w16 0 AMD_CMD_RESET]
              = cx_flash_cmd AMD_CMD_ERASE_PREPARE
                ++ [FlashEv.w16 0xaaa 0xaa, FlashEv.w16 0x554 0x55,
                    FlashEv.w16 0x4000 AMD_CMD_ERASE_SECTOR]
                ++ (List.range (m + 1)).map (fun j => FlashEv.r16 0x4000 ((fun _ => 0x20 : Nat → Nat) j)))
        ∨ (false = false ∧ (fun _ => 0x20 : Nat → Nat) m &&& AMD_ST_DATAPOLL = 0
            ∧ (fun _ => 0x20 : Nat → Nat) m &&& AMD_ST_TIMEOUT ≠ 0
            ∧ [FlashEv.w16 0xaaa 0xaa, FlashEv.w16 0x554 0x55, FlashEv.w16 0xaaa 0x80,
               FlashEv.w16 0xaaa 0xaa, FlashEv.w16 0x554 0x55, FlashEv.w16 0x4000 0x30,
               FlashEv.r16 0x4000 0x20, FlashEv.w16 0 AMD_CMD_RESET]
              = cx_flash_cmd AMD_CMD_ERASE_PREPARE
                ++ [FlashEv.w16 0xaaa 0xaa, FlashEv.w16 0x554 0x55,
                    FlashEv.w16 0x4000 AMD_CMD_ERASE_SECTOR]
                ++ (List.range (m + 1)).map (fun j => FlashEv.r16 0x4000 ((fun _ => 0x20 : Nat → Nat) j))
                ++ [FlashEv.w16 0 AMD_CMD_RESET])) :=
  claim9_amd_erase_timeout (fun _ => 0x20) 0x4000 3 false
    [FlashEv.w16 0xaaa 0xaa, FlashEv.w16 0x554 0x55, FlashEv.w16 0xaaa 0x80,
     FlashEv.w16 0xaaa 0xaa, FlashEv.w16 0x554 0x55, FlashEv.w16 0x4000 0x30,
     FlashEv.r16 0x4000 0x20, FlashEv.w16 0 AMD_CMD_RESET] (by decide)

/-- C8 (witness): the unmatched pair (0x1234, 0x5678) is rejected and
produces no engine operation. -/
theorem claim8_witness :
    flash_identify 0x0089 0x88c5 = some intel_chip
    ∧ intel_chip.size = 4 * 1024 * 1024
    ∧ activeBlocks intel_chip = [⟨8, 8192⟩, ⟨63, 65536⟩]
    ∧ flash_identify 0x1234 0x5678 = none
    ∧ main_write 0x1234 0x5678 (fun _ => true) (fun _ => true) = [] :=
  claim8_identify 0x1234 0x5678 (fun _ => true) (fun _ => true) (by decide)

/-! ## Memory layer: chunking and error propagation -/

theorem chunkSizes_zero : chunkSizes 0 = [] := by
  rw [chunkSizes]
  simp

theorem chunkSizes_succ (count : Nat) (h0 : count ≠ 0) :
    chunkSizes count = min count 56 :: chunkSizes (count - min count 56) := by
  rw [chunkSizes]
  simp [h0]

theorem chunkSizes_mem (count : Nat) : ∀ c ∈ chunkSizes count, 0 < c ∧ c ≤ 56 := by
  induction count using Nat.strong_induction_on with
  | _ count ih =>
    by_cases h0 : count = 0
    · subst h0
      rw [chunkSizes_zero]
      simp
    · rw [chunkSizes_succ count h0]
      intro c hc
      rcases List.mem_cons.mp hc with rfl | hc
      · omega
      · exact ih (count - min count 56) (by omega) c hc

theorem chunkSizes_sum (count : Nat) : (chunkSizes count).sum = count := by
  induction count using Nat.strong_induction_on with
  | _ count ih =>
    by_cases h0 : count = 0
    · subst h0
      rw [chunkSizes_zero]
      simp
    · rw [chunkSizes_succ count h0]
      simp only [List.sum_cons, ih (count - min count 56) (by omega)]
      omega

theorem add32_lt (a b : Nat) : add32 a b < 4294967296 :=
  Nat.mod_lt _ (by omega)

theorem add32_mod_left (a b : Nat) : add32 (a % 4294967296) b = add32 a b := by
  simp [add32, Nat.mod_add_mod]

theorem add32_mod (a b : Nat) : add32 a b % 4294967296 = add32 a b :=
  Nat.mod_eq_of_lt (add32_lt a b)

theorem cx_write_mem_zero (dev : UsbDev) (addr : Nat) (buf : List Nat) (access sn : Nat) :
    cx_write_mem dev addr 0 buf access sn = (0, [], sn) := by
  rw [cx_write_mem]
  simp

theorem cx_write_mem_step (dev : UsbDev) (addr count : Nat) (buf : List Nat)
    (access sn : Nat) (h0 : count ≠ 0) (hs : ¬dev.send sn < 0) :
    cx_write_mem dev addr count buf access sn
      = ((cx_write_mem dev (add32 addr (min count 56)) (count - min count 56)
            (buf.drop (min count 56)) access (sn + 1)).1,
         (⟨FW_WRITE_MEM, min count 56, access, 0, addr % 4294967296,
           takePad 56 (buf.take (min count 56))⟩ : Packet)
           :: (cx_write_mem dev (add32 addr (min count 56)) (count - min count 56)
                (buf.drop (min count 56)) access (sn + 1)).2.1,
         (cx_write_mem dev (add32 addr (min count 56)) (count - min count 56)
            (buf.drop (min count 56)) access (sn + 1)).2.2) := by
  rw [cx_write_mem]
  simp only [dif_neg h0, if_neg hs]

theorem cx_write_mem_fail (dev : UsbDev) (addr count : Nat) (buf : List Nat)
    (access sn : Nat) (h0 : count ≠ 0) (hs : dev.send sn < 0) :
    cx_write_mem dev addr count buf access sn
      = (dev.send sn,
         [⟨FW_WRITE_MEM, min count 56, access, 0, addr % 4294967296,
           takePad 56 (buf.take (min count 56))⟩], sn + 1) := by
  rw [cx_write_mem]
  simp only [dif_neg h0, if_pos hs]

/-- success behaviour of cx_write_mem when every transfer succeeds: the
return code is 0 and the packets sent carry exactly the chunk sizes,
consecutive addresses and the caller's access width, with ack_request
0. -/
theorem cx_write_mem_spec (dev : UsbDev) (hsend : ∀ k, 0 ≤ dev.send k) :
    ∀ count addr buf access sn,
      ∃ ps, cx_write_mem dev addr count buf access sn = (0, ps, sn + ps.length)
        ∧ ps.map Packet.byte_count = chunkSizes count
        ∧ (∀ p ∈ ps, p.cmd = FW_WRITE_MEM ∧ p.access_type = access ∧ p.ack_request = 0)
        ∧ List.Chain' (fun p q => q.address = add32 p.address p.byte_count) ps
        ∧ (∀ p ∈ ps.head?, p.address = addr % 4294967296) := by
  intro count
  induction count using Nat.strong_induction_on with
  | _ count ih =>
    intro addr buf access sn
    by_cases h0 : count = 0
    · subst h0
      refine ⟨[], ?_, ?_, ?_, ?_, ?_⟩ <;>
        simp [cx_write_mem_zero, chunkSizes_zero]
    · have hs : ¬dev.send sn < 0 := not_lt.mpr (hsend sn)
      obtain ⟨ps, hps, hmap, hprops, hchain, hhead⟩ :=
        ih (count - min count 56) (by omega) (add32 addr (min count 56))
          (buf.drop (min count 56)) access (sn + 1)
      refine ⟨⟨FW_WRITE_MEM, min count 56, access, 0, addr % 4294967296,
               takePad 56 (buf.take (min count 56))⟩ :: ps, ?_, ?_, ?_, ?_, ?_⟩
      · rw [cx_write_mem_step dev addr count buf access sn h0 hs, hps]
        simp only [List.length_cons, Prod.mk.injEq, true_and]
        omega
      · rw [List.map_cons, hmap, chunkSizes_succ count h0]
      · intro p hp
        rcases List.mem_cons.mp hp with rfl | hp
        · exact ⟨rfl, rfl, rfl⟩
        · exact hprops p hp
      · refine List.chain'_cons'.mpr ⟨?_, hchain⟩
        intro q hq
        have := hhead q hq
        rw [this, add32_mod, add32_mod_left]
      · intro p hp
        simp only [List.head?_cons, Option.mem_def, Option.some.injEq] at hp
        subst hp
        rfl

/-- any nonzero return code of cx_write_mem is negative and is the code
of a failed bulk transfer. -/
theorem cx_write_mem_error (dev : UsbDev) :
    ∀ count addr buf access sn,
      (cx_write_mem dev addr count buf access sn).1 = 0
      ∨ ((cx_write_mem dev addr count buf access sn).1 < 0
          ∧ ∃ k, dev.send k = (cx_write_mem dev addr count buf access sn).1) := by
  intro count
  induction count using Nat.strong_induction_on with
  | _ count ih =>
    intro addr buf access sn
    by_cases h0 : count = 0
    · subst h0
      rw [cx_write_mem_zero]
      exact Or.inl rfl
    · by_cases hs : dev.send sn < 0
      · rw [cx_write_mem_fail dev addr count buf access sn h0 hs]
        exact Or.inr ⟨hs, sn, rfl⟩
      · rw [cx_write_mem_step dev addr count buf access sn h0 hs]
        exact ih (count - min count 56) (by omega) (add32 addr (min count 56))
          (buf.drop (min count 56)) access (sn + 1)

theorem cx_read_inner_pbc0 (dev : UsbDev) (fuel rn addr count : Nat) (acc : List Nat) :
    cx_read_inner dev fuel rn 0 addr count acc = some (0, rn, addr, count, acc) := by
  cases fuel <;> rw [cx_read_inner]

/-- one exact response: a successful inbound transfer carrying exactly
the requested byte count finishes the inner loop in one step. -/
theorem cx_read_inner_exact (dev : UsbDev) (fuel rn pbc addr count : Nat) (acc : List Nat)
    (hp0 : pbc ≠ 0) (hp256 : pbc < 256)
    (hr : 0 ≤ (dev.recv rn).1) (hbc : (dev.recv rn).2.1 = pbc)
    (hcb : pbc ≤ count) (hc32 : count < 4294967296) :
    cx_read_inner dev (fuel + 1) rn pbc addr count acc
      = some (0, rn + 1, add32 addr pbc, count - pbc,
              acc ++ takePad pbc (dev.recv rn).2.2) := by
  obtain ⟨pb, rfl⟩ : ∃ pb, pbc = pb + 1 := ⟨pbc - 1, by omega⟩
  rw [cx_read_inner]
  simp only [if_neg (not_lt.mpr hr), hbc]
  have hmod : (pb + 1) % 256 = pb + 1 := Nat.mod_eq_of_lt hp256
  have hsub8 : sub8 (pb + 1) (pb + 1) = 0 := by
    simp only [sub8]
    omega
  have hsub32 : sub32 count (pb + 1) = count - (pb + 1) := by
    simp only [sub32]
    omega
  rw [hmod, hsub8, hsub32, cx_read_inner_pbc0]

/-- a some result of the inner loop has code 0 or the code of a failed
inbound transfer. -/
theorem cx_read_inner_error (dev : UsbDev) :
    ∀ fuel rn pbc addr count acc r,
      cx_read_inner dev fuel rn pbc addr count acc = some r →
      r.1 = 0 ∨ (r.1 < 0 ∧ ∃ k, (dev.recv k).1 = r.1) := by
  intro fuel
  induction fuel with
  | zero =>
    intro rn pbc addr count acc r h
    cases pbc with
    | zero =>
      rw [cx_read_inner_pbc0] at h
      cases h
      exact Or.inl rfl
    | succ pb => rw [cx_read_inner] at h; cases h
  | succ fuel ih =>
    intro rn pbc addr count acc r h
    cases pbc with
    | zero =>
      rw [cx_read_inner_pbc0] at h
      cases h
      exact Or.inl rfl
    | succ pb =>
      rw [cx_read_inner] at h
      by_cases hr : (dev.recv rn).1 < 0
      · simp only [if_pos hr] at h
        cases h
        exact Or.inr ⟨hr, rn, rfl⟩
      · simp only [if_neg hr] at h
        exact ih _ _ _ _ _ r h

theorem cx_read_outer_count0 (dev : UsbDev) (fuel addr access sn rn : Nat) (acc : List Nat) :
    cx_read_outer dev fuel addr 0 access sn rn acc = some (0, [], acc, sn, rn) := by
  cases fuel <;> rw [cx_read_outer]

/-- success behaviour of cx_read_outer when every transfer succeeds and
each chunk is answered by one exact response. -/
theorem cx_read_outer_spec (dev : UsbDev) (hsend : ∀ k, 0 ≤ dev.send k) :
    ∀ count fuel addr access sn rn acc,
      count < 4294967296 → count < fuel →
      (∀ n, 0 ≤ (dev.recv (rn + n)).1) →
      (∀ n, (dev.recv (rn + n)).2.1 = (chunkSizes count).getD n 0) →
      ∃ ps bytes,
        cx_read_outer dev fuel addr count access sn rn acc
          = some (0, ps, bytes, sn + ps.length, rn + ps.length)
        ∧ ps.map Packet.byte_count = chunkSizes count
        ∧ (∀ p ∈ ps, p.cmd = FW_READ_MEM ∧ p.access_type = access ∧ p.ack_request = 1)
        ∧ List.Chain' (fun p q => q.address = add32 p.address p.byte_count) ps
        ∧ (∀ p ∈ ps.head?, p.address = addr % 4294967296) := by
  intro count
  induction count using Nat.strong_induction_on with
  | _ count ih =>
    intro fuel addr access sn rn acc hc32 hfuel hrecv0 hrecvbc
    by_cases h0 : count = 0
    · subst h0
      exact ⟨[], acc, by rw [cx_read_outer_count0]; simp, by rw [chunkSizes_zero]; simp,
             by simp, List.chain'_nil, by simp⟩
    · obtain ⟨c, rfl⟩ : ∃ c, count = c + 1 := ⟨count - 1, by omega⟩
      obtain ⟨f, rfl⟩ : ∃ f, fuel = f + 1 := ⟨fuel - 1, by omega⟩
      obtain ⟨f2, rfl⟩ : ∃ f2, f = f2 + 1 := ⟨f - 1, by omega⟩
      have hbc0 : (dev.recv rn).2.1 = min (c + 1) 56 := by
        have := hrecvbc 0
        rw [Nat.add_zero] at this
        rw [this, chunkSizes_succ (c + 1) h0, List.getD_cons_zero]
      have hinner := cx_read_inner_exact dev f2 rn (min (c + 1) 56) addr (c + 1) acc
        (by omega) (by omega) (by have := hrecv0 0; rwa [Nat.add_zero] at this) hbc0
        (by omega) hc32
      obtain ⟨ps, bytes, hps, hmap, hprops, hchain, hhead⟩ :=
        ih ((c + 1) - min (c + 1) 56) (by omega) (f2 + 1) (add32 addr (min (c + 1) 56))
          access (sn + 1) (rn + 1) (acc ++ takePad (min (c + 1) 56) (dev.recv rn).2.2)
          (by omega) (by omega)
          (by intro n
              have := hrecv0 (n + 1)
              rwa [show rn + (n + 1) = rn + 1 + n from by omega] at this)
          (by intro n
              have := hrecvbc (n + 1)
              rw [show rn + (n + 1) = rn + 1 + n from by omega] at this
              rwa [chunkSizes_succ (c + 1) h0, List.getD_cons_succ] at this)
      refine ⟨⟨FW_READ_MEM, min (c + 1) 56, access, 1, addr % 4294967296,
               List.replicate 56 0⟩ :: ps, bytes, ?_, ?_, ?_, ?_, ?_⟩
      · rw [cx_read_outer]
        simp only [if_neg (not_lt.mpr (hsend sn)), hinner,
          if_neg (show ¬((0 : Int) < 0) from by omega), hps]
        simp only [List.length_cons, Option.some.injEq, Prod.mk.injEq, true_and]
        omega
      · rw [List.map_cons, hmap, chunkSizes_succ (c + 1) h0]
      · intro p hp
        rcases List.mem_cons.mp hp with rfl | hp
        · exact ⟨rfl, rfl, rfl⟩
        · exact hprops p hp
      · refine List.chain'_cons'.mpr ⟨?_, hchain⟩
        intro q hq
        have := hhead q hq
        rw [this, add32_mod, add32_mod_left]
      · intro p hp
        simp only [List.head?_cons, Option.mem_def, Option.some.injEq] at hp
        subst hp
        rfl

/-- a some result of cx_read_outer has code 0 or the code of a failed
transfer. -/
theorem cx_read_outer_error (dev : UsbDev) :
    ∀ fuel count addr access sn rn acc r,
      cx_read_outer dev fuel addr count access sn rn acc = some r →
      r.1 = 0 ∨ (r.1 < 0 ∧ ∃ k, dev.send k = r.1 ∨ (dev.recv k).1 = r.1) := by
  intro fuel
  induction fuel with
  | zero =>
    intro count addr access sn rn acc r h
    cases count with
    | zero =>
      rw [cx_read_outer_count0] at h
      cases h
      exact Or.inl rfl
    | succ c => rw [cx_read_outer] at h; cases h
  | succ fuel ih =>
    intro count addr access sn rn acc r h
    cases count with
    | zero =>
      rw [cx_read_outer_count0] at h
      cases h
      exact Or.inl rfl
    | succ c =>
      rw [cx_read_outer] at h
      by_cases hs : dev.send sn < 0
      · simp only [if_pos hs] at h
        cases h
        exact Or.inr ⟨hs, sn, Or.inl rfl⟩
      · simp only [if_neg hs] at h
        cases hm : cx_read_inner dev fuel rn (min (c + 1) 56) addr (c + 1) acc with
        | none => simp [hm] at h
        | some r2 =>
          obtain ⟨ret2, rn2, addr2, count2, acc2⟩ := r2
          have herr2 := cx_read_inner_error dev fuel rn (min (c + 1) 56) addr (c + 1) acc
            (ret2, rn2, addr2, count2, acc2) hm
          simp only [hm] at h
          rcases herr2 with h2 | ⟨h2, k, hk⟩
          · simp only at h2
            rw [if_neg (show ¬ret2 < 0 from by rw [h2]; omega)] at h
            cases hm2 : cx_read_outer dev fuel addr2 count2 access (sn + 1) rn2 acc2 with
            | none => simp [hm2] at h
            | some r3 =>
              obtain ⟨ret3, ps3, acc3, sn3, rn3⟩ := r3
              have herr3 := ih count2 addr2 access (sn + 1) rn2 acc2
                (ret3, ps3, acc3, sn3, rn3) hm2
              simp only [hm2, Option.some.injEq] at h
              subst h
              simpa using herr3
          · simp only at h2
            rw [if_pos h2] at h
            simp only [Option.some.injEq] at h
            subst h
            exact Or.inr ⟨h2, k, Or.inr hk⟩

/-- C5: on the success path both memory-layer operations split a
count-byte transfer into the chunk sequence chunkSizes count — nonempty
chunks of at most 56 bytes summing to count, sent at consecutive
addresses starting at the requested address (so they exactly tile the
transfer), each carrying the caller's access width unchanged; read
request packets have ack_request 1 and write packets ack_request 0. -/
theorem claim5_packet_chunking (dev : UsbDev) (addr count : Nat) (buf : List Nat)
    (access fuel : Nat)
    (hsend : ∀ k, 0 ≤ dev.send k)
    (hrecv0 : ∀ n, 0 ≤ (dev.recv n).1)
    (hrecvbc : ∀ n, (dev.recv n).2.1 = (chunkSizes count).getD n 0)
    (hc32 : count < 4294967296) (hfuel : count < fuel) :
    (∀ c ∈ chunkSizes count, 0 < c ∧ c ≤ 56)
    ∧ (chunkSizes count).sum = count
    ∧ (∃ ps, cx_write_mem dev addr count buf access 0 = (0, ps, ps.length)
        ∧ ps.map Packet.byte_count = chunkSizes count
        ∧ (∀ p ∈ ps, p.cmd = FW_WRITE_MEM ∧ p.access_type = access ∧ p.ack_request = 0)
        ∧ List.Chain' (fun p q => q.address = add32 p.address p.byte_count) ps
        ∧ (∀ p ∈ ps.head?, p.address = addr % 4294967296))
    ∧ (∃ ps bytes, cx_read_mem dev addr count access fuel = some (0, ps, bytes)
        ∧ ps.map Packet.byte_count = chunkSizes count
        ∧ (∀ p ∈ ps, p.cmd = FW_READ_MEM ∧ p.access_type = access ∧ p.ack_request = 1)
        ∧ List.Chain' (fun p q => q.address = add32 p.address p.byte_count) ps
        ∧ (∀ p ∈ ps.head?, p.address = addr % 4294967296)) := by
  refine ⟨chunkSizes_mem count, chunkSizes_sum count, ?_, ?_⟩
  · obtain ⟨ps, hps, hrest⟩ := cx_write_mem_spec dev hsend count addr buf access 0
    rw [Nat.zero_add] at hps
    exact ⟨ps, hps, hrest⟩
  · obtain ⟨ps, bytes, hps, hrest⟩ :=
      cx_read_outer_spec dev hsend count fuel addr access 0 0 [] hc32 hfuel
        (by simpa using hrecv0) (by simpa using hrecvbc)
    refine ⟨ps, bytes, ?_, hrest⟩
    simp only [cx_read_mem, hps]

/-- C5 (witness): a 120-byte transfer at address 0x100 against a device
answering each chunk exactly splits into chunks 56, 56, 8. -/
theorem claim5_witness :
    (∀ c ∈ chunkSizes 120, 0 < c ∧ c ≤ 56)
    ∧ (chunkSizes 120).sum = 120
    ∧ (∃ ps, cx_write_mem ⟨fun _ => 0, fun n => (0, (chunkSizes 120).getD n 0,
            List.replicate 56 0xab)⟩ 0x100 120 (List.range 120) MA_WORD 0
          = (0, ps, ps.length)
        ∧ ps.map Packet.byte_count = chunkSizes 120
        ∧ (∀ p ∈ ps, p.cmd = FW_WRITE_MEM ∧ p.access_type = MA_WORD ∧ p.ack_request = 0)
        ∧ List.Chain' (fun p q => q.address = add32 p.address p.byte_count) ps
        ∧ (∀ p ∈ ps.head?, p.address = 0x100 % 4294967296))
    ∧ (∃ ps bytes, cx_read_mem ⟨fun _ => 0, fun n => (0, (chunkSizes 120).getD n 0,
            List.replicate 56 0xab)⟩ 0x100 120 MA_WORD 121 = some (0, ps, bytes)
        ∧ ps.map Packet.byte_count = chunkSizes 120
        ∧ (∀ p ∈ ps, p.cmd = FW_READ_MEM ∧ p.access_type = MA_WORD ∧ p.ack_request = 1)
        ∧ List.Chain' (fun p q => q.address = add32 p.address p.byte_count) ps
        ∧ (∀ p ∈ ps.head?, p.address = 0x100 % 4294967296)) :=
  claim5_packet_chunking
    ⟨fun _ => 0, fun n => (0, (chunkSizes 120).getD n 0, List.replicate 56 0xab)⟩
    0x100 120 (List.range 120) MA_WORD 121
    (fun k => Int.le_refl 0) (fun n => Int.le_refl 0) (fun n => rfl)
    (by decide) (by decide)

/-- C2 (amended): every transport error arising in cx_read_mem or
cx_write_mem is propagated to their caller as a negative return value
(the code of the failing transfer, and a zero return means no performed
transfer failed); the flash register accessors built on them, however,
discard that value — cx_flash_read on a device whose transfers all fail
still returns a plain 16-bit word (the uninitialized stack bytes),
indistinguishable from a successful read. -/
theorem claim2_mem_layer_propagates :
    (∀ (dev : UsbDev) (count addr : Nat) (buf : List Nat) (access sn : Nat),
        (cx_write_mem dev addr count buf access sn).1 = 0
        ∨ ((cx_write_mem dev addr count buf access sn).1 < 0
            ∧ ∃ k, dev.send k = (cx_write_mem dev addr count buf access sn).1))
    ∧ (∀ (dev : UsbDev) (fuel addr count access : Nat) (r : Int × List Packet × List Nat),
        cx_read_mem dev addr count access fuel = some r →
        r.1 = 0 ∨ (r.1 < 0 ∧ ∃ k, dev.send k = r.1 ∨ (dev.recv k).1 = r.1))
    ∧ (∀ (fb a u1 u2 fuel : Nat),
        cx_flash_read devFail fb a (u1, u2) (fuel + 1) = some (u1 + 256 * u2)) := by
  refine ⟨?_, ?_, ?_⟩
  · intro dev count addr buf access sn
    exact cx_write_mem_error dev count addr buf access sn
  · intro dev fuel addr count access r h
    rw [cx_read_mem] at h
    cases hm : cx_read_outer dev fuel addr count access 0 0 [] with
    | none => simp [hm] at h
    | some r0 =>
      obtain ⟨ret, ps, acc, sn2, rn2⟩ := r0
      have herr := cx_read_outer_error dev fuel count addr access 0 0 []
        (ret, ps, acc, sn2, rn2) hm
      simp only [hm, Option.some.injEq] at h
      subst h
      simpa using herr
  · intro fb a u1 u2 fuel
    rfl

/-- C2 (witness): on the all-failing device a 2-byte read returns the
code -7 of the failed transfer. -/
theorem claim2_witness :
    ((-7 : Int), ([⟨FW_READ_MEM, 2, MA_WORD, 1, 0, List.replicate 56 0⟩] : List Packet),
      ([] : List Nat)).1 = 0
    ∨ (((-7 : Int), ([⟨FW_READ_MEM, 2, MA_WORD, 1, 0, List.replicate 56 0⟩] : List Packet),
        ([] : List Nat)).1 < 0
      ∧ ∃ k, devFail.send k
            = ((-7 : Int), ([⟨FW_READ_MEM, 2, MA_WORD, 1, 0, List.replicate 56 0⟩] : List Packet),
               ([] : List Nat)).1
          ∨ (devFail.recv k).1
            = ((-7 : Int), ([⟨FW_READ_MEM, 2, MA_WORD, 1, 0, List.replicate 56 0⟩] : List Packet),
               ([] : List Nat)).1) :=
  claim2_mem_layer_propagates.2.1 devFail 5 0 2 MA_WORD
    (-7, [⟨FW_READ_MEM, 2, MA_WORD, 1, 0, List.replicate 56 0⟩], []) (by decide)

/-- C2 (counterexample): a transport failure in the underlying memory
read is not propagated by cx_flash_read: on a device whose every
transfer fails with -7 the flash register read still returns the plain
word 0x1234 (from the uninitialized stack bytes), exactly the value a
successful read of 0x1234 returns — the caller cannot observe the error,
so the claim that no transport error is silently discarded in the flash
protocol layers is false. -/
theorem claim2_counterexample :
    cx_flash_read devFail 0x400000 0 (0x34, 0x12) 10 = some 0x1234
    ∧ cx_flash_read devOk34 0x400000 0 (0, 0) 10 = some 0x1234
    ∧ (cx_read_mem devFail 0x400000 2 MA_WORD 10).map (fun r => r.1) = some (-7)
    ∧ (cx_read_mem devOk34 0x400000 2 MA_WORD 10).map (fun r => r.1) = some 0 := by
  decide

end CxFlash
